import Mathlib

/-!
Verification of the quad-compress region-quadtree codec.

The definitions below are a shallow embedding of `src/quadtree.rs` and
`src/compressor.rs`.  Byte values (`u8`) are modelled as `Nat` (all values
produced by the code stay below 256 when the inputs do); `u8` subtraction
`max - min` is Nat truncated subtraction, which agrees with Rust because the
construction guarantees `min ≤ max`; integer division is Nat division.
Rust's panicking bitmap index `pixels[i]` is modelled with `List.getD _ i 0`;
all indices reached from a valid build are in bounds.
-/

/-- The tree of `src/quadtree.rs`: `Leaf(u8)` holds one pixel;
`Quad(min, max, a, b, c, d, rank)` holds the subtree minimum and maximum,
the four quadrant children in order top-left, top-right, bottom-left,
bottom-right, and the full bitmap rank. -/
inductive Quadtree where
  | Leaf (value : Nat)
  | Quad (low high : Nat) (a b c d : Quadtree) (rank : Nat)
deriving Repr, DecidableEq

/-- `low_bound` from `src/quadtree.rs`. -/
def low_bound (a b c d : Nat) : Nat := min (min a b) (min c d)

/-- `high_bound` from `src/quadtree.rs`. -/
def high_bound (a b c d : Nat) : Nat := max (max a b) (max c d)

/-- `Quadtree::min` from `src/quadtree.rs`. -/
def Quadtree.minVal : Quadtree → Nat
  | .Leaf v => v
  | .Quad lo _ _ _ _ _ _ => lo

/-- `Quadtree::max` from `src/quadtree.rs`. -/
def Quadtree.maxVal : Quadtree → Nat
  | .Leaf v => v
  | .Quad _ hi _ _ _ _ _ => hi

/-- `Quadtree::build` from `src/quadtree.rs`.  The source tests
`window == 1`; we guard on `window ≤ 1` so the definition is total — in the
source a call with `window == 0` never returns (it can only arise from an
empty bitmap), and no claim evaluates the function there. -/
def Quadtree.build (pixels : List Nat) (rank : Nat) (p : Nat × Nat) (window : Nat) :
    Quadtree :=
  if window ≤ 1 then
    Quadtree.Leaf (pixels.getD (p.1 + p.2 * rank) 0)
  else
    let s := window / 2
    let a := Quadtree.build pixels rank (p.1, p.2) s
    let b := Quadtree.build pixels rank (p.1 + s, p.2) s
    let c := Quadtree.build pixels rank (p.1, p.2 + s) s
    let d := Quadtree.build pixels rank (p.1 + s, p.2 + s) s
    Quadtree.Quad
      (low_bound a.minVal b.minVal c.minVal d.minVal)
      (high_bound a.maxVal b.maxVal c.maxVal d.maxVal)
      a b c d rank
termination_by window
decreasing_by
  all_goals simp only [not_le] at *; omega

/-- `Quadtree::new` from `src/quadtree.rs`.  The source computes
`rank = sqrt(len)` (truncated) and `assert!`s `len == rank*rank`; the failed
assertion (a panic) is modelled as `none`.  `Nat.sqrt` is the same truncated
square root the `f32` computation yields on bitmap sizes of interest. -/
def Quadtree.new (pixels : List Nat) : Option Quadtree :=
  let rank := Nat.sqrt pixels.length
  if pixels.length = rank * rank then
    some (Quadtree.build pixels rank (0, 0) rank)
  else
    none

/-- `Quadtree::average` from `src/quadtree.rs`: the recursive four-way
integer mean of the children's averages. -/
def Quadtree.average : Quadtree → Nat
  | .Leaf v => v
  | .Quad _ _ a b c d _ => (a.average + b.average + c.average + d.average) / 4

/-- `Quadtree::get_deep` from `src/quadtree.rs`.  Point coordinates are
`u32`; `x - xo` is truncated subtraction, as in Rust release builds, and the
descent keeps `xo ≤ x` and `yo ≤ y` whenever they hold at entry. -/
def Quadtree.get_deep : Quadtree → Nat × Nat → Nat → Nat × Nat → Nat → Nat
  | .Leaf v, _, _, _, _ => v
  | t@(.Quad lo hi a b c d _), p, cutoff, so, window =>
    let contrast := hi - lo
    if contrast < cutoff then
      t.average
    else
      let x := p.1
      let y := p.2
      let xo := so.1
      let yo := so.2
      let s := window / 2
      if x - xo < s then
        if y - yo < s then a.get_deep p cutoff (xo, yo) s
        else c.get_deep p cutoff (xo, yo + s) s
      else
        if y - yo < s then b.get_deep p cutoff (xo + s, yo) s
        else d.get_deep p cutoff (xo + s, yo + s) s

/-- `Quadtree::get` from `src/quadtree.rs`: the exact query, cutoff 0. -/
def Quadtree.get (t : Quadtree) (p : Nat × Nat) : Nat :=
  match t with
  | .Leaf v => v
  | .Quad _ _ _ _ _ _ rank => t.get_deep p 0 (0, 0) rank

/-- `Quadtree::get_approx` from `src/quadtree.rs`. -/
def Quadtree.get_approx (t : Quadtree) (p : Nat × Nat) (cutoff : Nat) : Nat :=
  match t with
  | .Leaf v => v
  | .Quad _ _ _ _ _ _ rank => t.get_deep p cutoff (0, 0) rank

/-- `Quadtree::build_leaf_index` from `src/quadtree.rs`; the bits pushed
into the `BitVec`, as a list in push order. -/
def Quadtree.build_leaf_index : Quadtree → Nat → List Bool
  | .Leaf _, _ => [false]
  | .Quad lo hi a b c d _, cutoff =>
    if hi - lo < cutoff then
      [false]
    else
      true :: (a.build_leaf_index cutoff ++ b.build_leaf_index cutoff ++
        c.build_leaf_index cutoff ++ d.build_leaf_index cutoff)

/-- `Quadtree::build_leaf_data` from `src/quadtree.rs`; the bytes pushed
into the vector, as a list in push order.  Note the collapsed-branch byte is
`min/2 + max/2`, computed with `u8` (truncating) division. -/
def Quadtree.build_leaf_data : Quadtree → Nat → List Nat
  | .Leaf v, _ => [v]
  | .Quad lo hi a b c d _, cutoff =>
    if hi - lo < cutoff then
      [lo / 2 + hi / 2]
    else
      a.build_leaf_data cutoff ++ b.build_leaf_data cutoff ++
        c.build_leaf_data cutoff ++ d.build_leaf_data cutoff

/-- Node count of a tree (used as decoding fuel). -/
def Quadtree.size : Quadtree → Nat
  | .Leaf _ => 1
  | .Quad _ _ a b c d _ => 1 + a.size + b.size + c.size + d.size

/-- `ImgCompressor::compressed_size` from `src/compressor.rs`, with the three
channel trees passed explicitly: the sum of the three leaf-data lengths plus
the *total* structure bit count divided by 8 (usize floor division). -/
def compressed_size (lumin c_blu c_red : Quadtree) (cutoffs : Nat × Nat × Nat) : Nat :=
  let rd := lumin.build_leaf_data cutoffs.1
  let gd := c_blu.build_leaf_data cutoffs.2.1
  let bd := c_red.build_leaf_data cutoffs.2.2
  let ri := lumin.build_leaf_index cutoffs.1
  let gi := c_blu.build_leaf_index cutoffs.2.1
  let bi := c_red.build_leaf_index cutoffs.2.2
  rd.length + gd.length + bd.length + (ri.length + gi.length + bi.length) / 8

/-! ### Unfolding lemmas for `Quadtree.build` -/

theorem Quadtree.build_base (pixels : List Nat) (rank : Nat) (p : Nat × Nat)
    (w : Nat) (h : w ≤ 1) :
    Quadtree.build pixels rank p w = .Leaf (pixels.getD (p.1 + p.2 * rank) 0) := by
  rw [Quadtree.build]
  simp [h]

theorem Quadtree.build_step (pixels : List Nat) (rank : Nat) (p : Nat × Nat)
    (w : Nat) (h : 2 ≤ w) :
    Quadtree.build pixels rank p w =
      Quadtree.Quad
        (low_bound (Quadtree.build pixels rank (p.1, p.2) (w / 2)).minVal
          (Quadtree.build pixels rank (p.1 + w / 2, p.2) (w / 2)).minVal
          (Quadtree.build pixels rank (p.1, p.2 + w / 2) (w / 2)).minVal
          (Quadtree.build pixels rank (p.1 + w / 2, p.2 + w / 2) (w / 2)).minVal)
        (high_bound (Quadtree.build pixels rank (p.1, p.2) (w / 2)).maxVal
          (Quadtree.build pixels rank (p.1 + w / 2, p.2) (w / 2)).maxVal
          (Quadtree.build pixels rank (p.1, p.2 + w / 2) (w / 2)).maxVal
          (Quadtree.build pixels rank (p.1 + w / 2, p.2 + w / 2) (w / 2)).maxVal)
        (Quadtree.build pixels rank (p.1, p.2) (w / 2))
        (Quadtree.build pixels rank (p.1 + w / 2, p.2) (w / 2))
        (Quadtree.build pixels rank (p.1, p.2 + w / 2) (w / 2))
        (Quadtree.build pixels rank (p.1 + w / 2, p.2 + w / 2) (w / 2))
        rank := by
  rw [Quadtree.build]
  simp [show ¬ w ≤ 1 by omega]

/-! ### The exact-query descent clamps coordinates -/

theorem Quadtree.get_deep_build (k : Nat) :
    ∀ (pixels : List Nat) (rank xo yo x y : Nat), xo ≤ x → yo ≤ y →
    (Quadtree.build pixels rank (xo, yo) (2 ^ k)).get_deep (x, y) 0 (xo, yo) (2 ^ k) =
      pixels.getD (min x (xo + 2 ^ k - 1) + min y (yo + 2 ^ k - 1) * rank) 0 := by
  induction k with
  | zero =>
    intro pixels rank xo yo x y hx hy
    rw [Quadtree.build_base _ _ _ _ (by norm_num)]
    simp only [Quadtree.get_deep, pow_zero]
    have ex : min x (xo + 1 - 1) = xo := by omega
    have ey : min y (yo + 1 - 1) = yo := by omega
    rw [ex, ey]
  | succ k ih =>
    intro pixels rank xo yo x y hx hy
    have hp : (2 : Nat) ^ (k + 1) = 2 ^ k + 2 ^ k := by
      rw [pow_succ]
      omega
    have hpos : 0 < 2 ^ k := Nat.pos_pow_of_pos k (by norm_num)
    have h2 : (2 : Nat) ≤ 2 ^ (k + 1) := by omega
    have hs : 2 ^ (k + 1) / 2 = 2 ^ k := by omega
    rw [Quadtree.build_step _ _ _ _ h2]
    simp only [Quadtree.get_deep, Nat.not_lt_zero, if_false, hs]
    by_cases hxs : x - xo < 2 ^ k
    · have ex : min x (xo + 2 ^ k - 1) = min x (xo + 2 ^ (k + 1) - 1) := by omega
      by_cases hys : y - yo < 2 ^ k
      · have ey : min y (yo + 2 ^ k - 1) = min y (yo + 2 ^ (k + 1) - 1) := by omega
        rw [if_pos hxs, if_pos hys, ih pixels rank xo yo x y hx hy, ex, ey]
      · have ey : min y (yo + 2 ^ k + 2 ^ k - 1) = min y (yo + 2 ^ (k + 1) - 1) := by omega
        rw [if_pos hxs, if_neg hys, ih pixels rank xo (yo + 2 ^ k) x y hx (by omega), ex, ey]
    · have ex : min x (xo + 2 ^ k + 2 ^ k - 1) = min x (xo + 2 ^ (k + 1) - 1) := by omega
      by_cases hys : y - yo < 2 ^ k
      · have ey : min y (yo + 2 ^ k - 1) = min y (yo + 2 ^ (k + 1) - 1) := by omega
        rw [if_neg hxs, if_pos hys, ih pixels rank (xo + 2 ^ k) yo x y (by omega) hy, ex, ey]
      · have ey : min y (yo + 2 ^ k + 2 ^ k - 1) = min y (yo + 2 ^ (k + 1) - 1) := by omega
        rw [if_neg hxs, if_neg hys,
          ih pixels rank (xo + 2 ^ k) (yo + 2 ^ k) x y (by omega) (by omega), ex, ey]

/-! ### Aggregate bounds -/

theorem low_bound_le {a b c d x : Nat}
    (h : x = a ∨ x = b ∨ x = c ∨ x = d) : low_bound a b c d ≤ x := by
  simp only [low_bound]
  omega

theorem le_high_bound {a b c d x : Nat}
    (h : x = a ∨ x = b ∨ x = c ∨ x = d) : x ≤ high_bound a b c d := by
  simp only [high_bound]
  omega

theorem Quadtree.build_bounds (k : Nat) :
    ∀ (pixels : List Nat) (rank xo yo x y : Nat),
    xo ≤ x → x < xo + 2 ^ k → yo ≤ y → y < yo + 2 ^ k →
    (Quadtree.build pixels rank (xo, yo) (2 ^ k)).minVal ≤
        pixels.getD (x + y * rank) 0 ∧
      pixels.getD (x + y * rank) 0 ≤
        (Quadtree.build pixels rank (xo, yo) (2 ^ k)).maxVal := by
  induction k with
  | zero =>
    intro pixels rank xo yo x y hx1 hx2 hy1 hy2
    rw [Quadtree.build_base _ _ _ _ (by norm_num)]
    simp only [pow_zero] at hx2 hy2
    have ex : x = xo := by omega
    have ey : y = yo := by omega
    subst ex ey
    simp [Quadtree.minVal, Quadtree.maxVal]
  | succ k ih =>
    intro pixels rank xo yo x y hx1 hx2 hy1 hy2
    have hp : (2 : Nat) ^ (k + 1) = 2 ^ k + 2 ^ k := by
      rw [pow_succ]
      omega
    have hpos : 0 < 2 ^ k := Nat.pos_pow_of_pos k (by norm_num)
    rw [Quadtree.build_step _ _ _ _ (by omega)]
    simp only [Quadtree.minVal, Quadtree.maxVal, show 2 ^ (k + 1) / 2 = 2 ^ k by omega]
    by_cases hxs : x < xo + 2 ^ k
    · by_cases hys : y < yo + 2 ^ k
      · have h := ih pixels rank xo yo x y hx1 hxs hy1 hys
        exact ⟨le_trans (low_bound_le (by left; rfl)) h.1,
          le_trans h.2 (le_high_bound (by left; rfl))⟩
      · have h := ih pixels rank xo (yo + 2 ^ k) x y hx1 hxs (by omega) (by omega)
        exact ⟨le_trans (low_bound_le (by right; right; left; rfl)) h.1,
          le_trans h.2 (le_high_bound (by right; right; left; rfl))⟩
    · by_cases hys : y < yo + 2 ^ k
      · have h := ih pixels rank (xo + 2 ^ k) yo x y (by omega) (by omega) hy1 hys
        exact ⟨le_trans (low_bound_le (by right; left; rfl)) h.1,
          le_trans h.2 (le_high_bound (by right; left; rfl))⟩
      · have h := ih pixels rank (xo + 2 ^ k) (yo + 2 ^ k) x y
          (by omega) (by omega) (by omega) (by omega)
        exact ⟨le_trans (low_bound_le (by right; right; right; rfl)) h.1,
          le_trans h.2 (le_high_bound (by right; right; right; rfl))⟩

/-! ### Stream lengths -/

theorem Quadtree.one_le_leaf_data_length (t : Quadtree) (co : Nat) :
    1 ≤ (t.build_leaf_data co).length := by
  induction t with
  | Leaf v => simp [Quadtree.build_leaf_data]
  | Quad lo hi a b c d rk iha ihb ihc ihd =>
    by_cases h : hi - lo < co
    · simp [Quadtree.build_leaf_data, h]
    · simp only [Quadtree.build_leaf_data, if_neg h, List.length_append]
      omega

theorem Quadtree.one_le_leaf_index_length (t : Quadtree) (co : Nat) :
    1 ≤ (t.build_leaf_index co).length := by
  induction t with
  | Leaf v => simp [Quadtree.build_leaf_index]
  | Quad lo hi a b c d rk iha ihb ihc ihd =>
    by_cases h : hi - lo < co
    · simp [Quadtree.build_leaf_index, h]
    · simp only [Quadtree.build_leaf_index, if_neg h, List.length_cons, List.length_append]
      omega

theorem Quadtree.leaf_data_length_anti (t : Quadtree) (c1 c2 : Nat) (h : c1 ≤ c2) :
    (t.build_leaf_data c2).length ≤ (t.build_leaf_data c1).length := by
  induction t with
  | Leaf v => simp [Quadtree.build_leaf_data]
  | Quad lo hi a b c d rk iha ihb ihc ihd =>
    by_cases h1 : hi - lo < c1
    · simp [Quadtree.build_leaf_data, h1, lt_of_lt_of_le h1 h]
    · by_cases h2 : hi - lo < c2
      · simp only [Quadtree.build_leaf_data, if_neg h1, if_pos h2, List.length_append,
          List.length_cons, List.length_nil]
        have := a.one_le_leaf_data_length c1
        omega
      · simp only [Quadtree.build_leaf_data, if_neg h1, if_neg h2, List.length_append]
        omega

theorem Quadtree.leaf_index_length_anti (t : Quadtree) (c1 c2 : Nat) (h : c1 ≤ c2) :
    (t.build_leaf_index c2).length ≤ (t.build_leaf_index c1).length := by
  induction t with
  | Leaf v => simp [Quadtree.build_leaf_index]
  | Quad lo hi a b c d rk iha ihb ihc ihd =>
    by_cases h1 : hi - lo < c1
    · simp [Quadtree.build_leaf_index, h1, lt_of_lt_of_le h1 h]
    · by_cases h2 : hi - lo < c2
      · simp only [Quadtree.build_leaf_index, if_neg h1, if_pos h2, List.length_append,
          List.length_cons, List.length_nil]
        have := a.one_le_leaf_index_length c1
        omega
      · simp only [Quadtree.build_leaf_index, if_neg h1, if_neg h2, List.length_cons,
          List.length_append]
        omega

theorem Quadtree.leaf_data_length_build_le (k : Nat) :
    ∀ (pixels : List Nat) (rank xo yo co : Nat),
    ((Quadtree.build pixels rank (xo, yo) (2 ^ k)).build_leaf_data co).length ≤
      2 ^ k * 2 ^ k := by
  induction k with
  | zero =>
    intro pixels rank xo yo co
    rw [Quadtree.build_base _ _ _ _ (by norm_num)]
    simp [Quadtree.build_leaf_data]
  | succ k ih =>
    intro pixels rank xo yo co
    have hp : (2 : Nat) ^ (k + 1) = 2 ^ k + 2 ^ k := by
      rw [pow_succ]
      omega
    have hpos : 0 < 2 ^ k := Nat.pos_pow_of_pos k (by norm_num)
    rw [Quadtree.build_step _ _ _ _ (by omega)]
    simp only [Quadtree.build_leaf_data, show 2 ^ (k + 1) / 2 = 2 ^ k by omega]
    split
    · simp
      nlinarith
    · simp only [List.length_append]
      have h1 := ih pixels rank xo yo co
      have h2 := ih pixels rank (xo + 2 ^ k) yo co
      have h3 := ih pixels rank xo (yo + 2 ^ k) co
      have h4 := ih pixels rank (xo + 2 ^ k) (yo + 2 ^ k) co
      nlinarith

theorem Quadtree.leaf_data_length_build_zero (k : Nat) :
    ∀ (pixels : List Nat) (rank xo yo : Nat),
    ((Quadtree.build pixels rank (xo, yo) (2 ^ k)).build_leaf_data 0).length =
      2 ^ k * 2 ^ k := by
  induction k with
  | zero =>
    intro pixels rank xo yo
    rw [Quadtree.build_base _ _ _ _ (by norm_num)]
    simp [Quadtree.build_leaf_data]
  | succ k ih =>
    intro pixels rank xo yo
    have hp : (2 : Nat) ^ (k + 1) = 2 ^ k + 2 ^ k := by
      rw [pow_succ]
      omega
    have hpos : 0 < 2 ^ k := Nat.pos_pow_of_pos k (by norm_num)
    rw [Quadtree.build_step _ _ _ _ (by omega)]
    simp only [Quadtree.build_leaf_data, Nat.not_lt_zero, if_false, List.length_append,
      show 2 ^ (k + 1) / 2 = 2 ^ k by omega]
    rw [ih pixels rank xo yo, ih pixels rank (xo + 2 ^ k) yo,
      ih pixels rank xo (yo + 2 ^ k), ih pixels rank (xo + 2 ^ k) (yo + 2 ^ k)]
    nlinarith

/-! ### Decoding the two streams in lockstep -/

/-- Modelled from the spec: the decoder walk of §4.3, which the reference
prototype does not implement.  It consumes the structure stream and the
leaf-data stream in the encoder's fixed pre-order: a `false` bit consumes the
one byte that position emitted, a `true` bit descends into four children.
`fuel` bounds the recursion depth; the result is the unconsumed remainder of
both streams, or `none` on underrun. -/
def decodeNode : Nat → List Bool → List Nat → Option (List Bool × List Nat)
  | 0, _, _ => none
  | _ + 1, [], _ => none
  | _ + 1, false :: _, [] => none
  | _ + 1, false :: bits, _ :: bytes => some (bits, bytes)
  | fuel + 1, true :: bits, bytes =>
    match decodeNode fuel bits bytes with
    | none => none
    | some (bits1, bytes1) =>
      match decodeNode fuel bits1 bytes1 with
      | none => none
      | some (bits2, bytes2) =>
        match decodeNode fuel bits2 bytes2 with
        | none => none
        | some (bits3, bytes3) => decodeNode fuel bits3 bytes3

theorem decodeNode_spec (t : Quadtree) :
    ∀ (co F : Nat) (rbits : List Bool) (rbytes : List Nat), t.size ≤ F →
    decodeNode F (t.build_leaf_index co ++ rbits) (t.build_leaf_data co ++ rbytes) =
      some (rbits, rbytes) := by
  induction t with
  | Leaf v =>
    intro co F rbits rbytes hF
    obtain ⟨G, rfl⟩ : ∃ G, F = G + 1 := ⟨F - 1, by simp [Quadtree.size] at hF; omega⟩
    simp [Quadtree.build_leaf_index, Quadtree.build_leaf_data, decodeNode]
  | Quad lo hi a b c d rk iha ihb ihc ihd =>
    intro co F rbits rbytes hF
    obtain ⟨G, rfl⟩ : ∃ G, F = G + 1 := ⟨F - 1, by simp [Quadtree.size] at hF; omega⟩
    have hG : a.size ≤ G ∧ b.size ≤ G ∧ c.size ≤ G ∧ d.size ≤ G := by
      simp [Quadtree.size] at hF
      have ha := a.size
      omega
    by_cases h : hi - lo < co
    · simp [Quadtree.build_leaf_index, Quadtree.build_leaf_data, h, decodeNode]
    · simp only [Quadtree.build_leaf_index, Quadtree.build_leaf_data, if_neg h,
        List.cons_append, List.append_assoc]
      simp only [decodeNode]
      rw [iha co G _ _ hG.1]
      dsimp only
      rw [ihb co G _ _ hG.2.1]
      dsimp only
      rw [ihc co G _ _ hG.2.2.1]
      dsimp only
      rw [ihd co G _ _ hG.2.2.2]

/-! ### Spec-side comparison definitions -/

/-- The spec's `lerp(a,b,f) = a*(1-f) + b*f`, "computed in floating point and
truncated to a byte", stated over `ℚ` for comparison.  `src/quadtree.rs`
defines the matching `lerp` (lines 141-143) but never calls it. -/
def specLerp (a b : Nat) (f : ℚ) : Nat := (⌊(a : ℚ) * (1 - f) + (b : ℚ) * f⌋).toNat

/-- The spec's collapsed-branch reconstruction (§4.2), stated for comparison
with the code: bilinear interpolation of the region's four corner samples at
the fractional position `fx = (x-xo)/size`, `fy = (y-yo)/size`
(`top = lerp(tl,tr,fx)`, `bottom = lerp(bl,br,fx)`, `result =
lerp(top,bottom,fy)`), halved when the point lies on the left or top edge. -/
def specCollapseValue (tl tr bl br x y xo yo sz : Nat) : Nat :=
  let fx : ℚ := ((x : ℚ) - (xo : ℚ)) / (sz : ℚ)
  let fy : ℚ := ((y : ℚ) - (yo : ℚ)) / (sz : ℚ)
  let top := specLerp tl tr fx
  let bottom := specLerp bl br fx
  let result := specLerp top bottom fy
  if x = xo ∨ y = yo then result / 2 else result

/-- The spec's byte-size accounting (§4.3), for comparison with the code:
per-channel `ceil(structure_bits / 8) + leaf_data_bytes`, summed over the
three channels. -/
def specPayloadSize (lumin c_blu c_red : Quadtree) (cutoffs : Nat × Nat × Nat) : Nat :=
  (((lumin.build_leaf_index cutoffs.1).length + 7) / 8 +
      (lumin.build_leaf_data cutoffs.1).length) +
    (((c_blu.build_leaf_index cutoffs.2.1).length + 7) / 8 +
      (c_blu.build_leaf_data cutoffs.2.1).length) +
    (((c_red.build_leaf_index cutoffs.2.2).length + 7) / 8 +
      (c_red.build_leaf_data cutoffs.2.2).length)

/-! ### Claim C1 -/

/-- Claim C1, counterexample.  Build the tree of the 2×2 bitmap `[5,0,0,0]`
(a branch at offset `(0,0)` of size 2 whose region corners are
`tl=5, tr=0, bl=0, br=0`, with contrast `5 < 10`, hence collapsed at cutoff
10).  The claim predicts the edge-halved bilinear value
`specCollapseValue 5 0 0 0 0 0 0 0 2 = 2` at the point `(0,0)`; the code
returns the recursive average `1`. -/
theorem C1_counterexample :
    (Quadtree.build [5, 0, 0, 0] 2 (0, 0) 2).get_approx (0, 0) 10 = 1 ∧
      specCollapseValue 5 0 0 0 0 0 0 0 2 = 2 ∧ (1 : Nat) ≠ 2 := by
  refine ⟨?_, ?_, by decide⟩
  · have ht : Quadtree.build [5, 0, 0, 0] 2 (0, 0) 2 =
        .Quad 0 5 (.Leaf 5) (.Leaf 0) (.Leaf 0) (.Leaf 0) 2 := by
      simp [Quadtree.build_step, Quadtree.build_base, low_bound, high_bound,
        Quadtree.minVal, Quadtree.maxVal]
    rw [ht]
    decide
  · norm_num [specCollapseValue, specLerp]
    rfl

/-- Claim C1, amended: when the approximate query reaches a `Quad` whose
contrast `high - low` is strictly below the cutoff, it returns the node's
`average` — the recursive four-way integer mean of the children's averages —
independently of the query point's position; no corner interpolation and no
edge-halving take place (the code stores no corner samples and never calls
its `lerp`). -/
theorem C1_collapsed_returns_average (lo hi : Nat) (a b c d : Quadtree)
    (rk : Nat) (p q : Nat × Nat) (co : Nat) (so : Nat × Nat) (w : Nat)
    (h : hi - lo < co) :
    (Quadtree.Quad lo hi a b c d rk).get_deep p co so w =
        (Quadtree.Quad lo hi a b c d rk).average ∧
      (Quadtree.Quad lo hi a b c d rk).get_deep p co so w =
        (Quadtree.Quad lo hi a b c d rk).get_deep q co so w := by
  constructor <;> simp [Quadtree.get_deep, h]

/-- Witness for `C1_collapsed_returns_average` at the counterexample's
branch, with query points `(0,0)` and `(1,1)` and cutoff 10. -/
theorem C1_collapsed_returns_average_witness :
    (Quadtree.Quad 0 5 (.Leaf 5) (.Leaf 0) (.Leaf 0) (.Leaf 0) 2).get_deep
        (0, 0) 10 (0, 0) 2 =
      (Quadtree.Quad 0 5 (.Leaf 5) (.Leaf 0) (.Leaf 0) (.Leaf 0) 2).average ∧
    (Quadtree.Quad 0 5 (.Leaf 5) (.Leaf 0) (.Leaf 0) (.Leaf 0) 2).get_deep
        (0, 0) 10 (0, 0) 2 =
      (Quadtree.Quad 0 5 (.Leaf 5) (.Leaf 0) (.Leaf 0) (.Leaf 0) 2).get_deep
        (1, 1) 10 (0, 0) 2 :=
  C1_collapsed_returns_average 0 5 (.Leaf 5) (.Leaf 0) (.Leaf 0) (.Leaf 0) 2
    (0, 0) (1, 1) 10 (0, 0) 2 (by decide)

/-! ### Claims C2 and C9: the exact query on built trees -/

theorem Quadtree.get_build_clamp (k : Nat) (pixels : List Nat) (x y : Nat) :
    (Quadtree.build pixels (2 ^ k) (0, 0) (2 ^ k)).get (x, y) =
      pixels.getD (min x (2 ^ k - 1) + min y (2 ^ k - 1) * 2 ^ k) 0 := by
  match k with
  | 0 =>
    rw [Quadtree.build_base _ _ _ _ (by norm_num)]
    simp [Quadtree.get]
  | j + 1 =>
    have h2 : (2 : Nat) ≤ 2 ^ (j + 1) := by
      have : (0 : Nat) < 2 ^ j := Nat.pos_pow_of_pos j (by norm_num)
      rw [pow_succ]
      omega
    obtain ⟨lo, hi, a, b, c, d, hq⟩ : ∃ lo hi a b c d,
        Quadtree.build pixels (2 ^ (j + 1)) (0, 0) (2 ^ (j + 1)) =
          .Quad lo hi a b c d (2 ^ (j + 1)) :=
      ⟨_, _, _, _, _, _, Quadtree.build_step _ _ _ _ h2⟩
    have hget : (Quadtree.build pixels (2 ^ (j + 1)) (0, 0) (2 ^ (j + 1))).get (x, y) =
        (Quadtree.build pixels (2 ^ (j + 1)) (0, 0) (2 ^ (j + 1))).get_deep
          (x, y) 0 (0, 0) (2 ^ (j + 1)) := by
      conv in Quadtree.get _ _ => rw [hq]
      conv in Quadtree.get_deep _ _ _ _ _ => rw [hq]
      rfl
    rw [hget,
      Quadtree.get_deep_build (j + 1) pixels (2 ^ (j + 1)) 0 0 x y
        (Nat.zero_le _) (Nat.zero_le _)]
    simp

/-- Claim C2: for a bitmap whose length is the square of a power-of-two rank,
construction succeeds and the exact query (cutoff 0) returns the original
sample at every in-bounds point. -/
theorem C2_exact_roundtrip (k : Nat) (pixels : List Nat) (x y : Nat)
    (hlen : pixels.length = 2 ^ k * 2 ^ k) (hx : x < 2 ^ k) (hy : y < 2 ^ k) :
    ∃ t, Quadtree.new pixels = some t ∧
      t.get (x, y) = pixels.getD (x + y * 2 ^ k) 0 := by
  have hsqrt : Nat.sqrt pixels.length = 2 ^ k := by
    rw [hlen, Nat.sqrt_eq]
  refine ⟨Quadtree.build pixels (2 ^ k) (0, 0) (2 ^ k), ?_, ?_⟩
  · simp only [Quadtree.new, hsqrt]
    rw [if_pos (by rw [hlen])]
  · rw [Quadtree.get_build_clamp k pixels x y]
    have hpos : 0 < 2 ^ k := Nat.pos_pow_of_pos k (by norm_num)
    have ex : min x (2 ^ k - 1) = x := by omega
    have ey : min y (2 ^ k - 1) = y := by omega
    rw [ex, ey]

/-- Witness for `C2_exact_roundtrip`: the spec's 4×4 example bitmap, point
`(3,0)`, whose sample is 255. -/
theorem C2_exact_roundtrip_witness :
    ∃ t, Quadtree.new [1, 1, 255, 255, 1, 1, 255, 255, 3, 0, 4, 4, 0, 0, 4, 4] =
        some t ∧
      t.get (3, 0) =
        ([1, 1, 255, 255, 1, 1, 255, 255, 3, 0, 4, 4, 0, 0, 4, 4] : List Nat).getD
          (3 + 0 * 2 ^ 2) 0 :=
  C2_exact_roundtrip 2 [1, 1, 255, 255, 1, 1, 255, 255, 3, 0, 4, 4, 0, 0, 4, 4]
    3 0 (by decide) (by decide) (by decide)

/-- Claim C9, counterexample.  On the tree of the 2×2 bitmap `[1,2,3,4]`
(rank 2), the point `(5,7)` is far outside `[0,2)²`, yet the query silently
returns `4` — the pixel at `(1,1)` — instead of signaling any out-of-bounds
condition. -/
theorem C9_counterexample :
    (Quadtree.build [1, 2, 3, 4] 2 (0, 0) 2).get (5, 7) = 4 ∧ ¬ (5 < 2) := by
  refine ⟨?_, by decide⟩
  have ht : Quadtree.build [1, 2, 3, 4] 2 (0, 0) 2 =
      .Quad 1 4 (.Leaf 1) (.Leaf 2) (.Leaf 3) (.Leaf 4) 2 := by
    simp [Quadtree.build_step, Quadtree.build_base, low_bound, high_bound,
      Quadtree.minVal, Quadtree.maxVal]
  rw [ht]
  decide

/-- Claim C9, amended: the code performs no bounds check at all — the exact
query at an arbitrary point `(x,y)`, in bounds or not, silently returns the
pixel at the coordinate-wise clamp of `(x,y)` into `[0, rank)²` (the descent
treats any coordinate at or beyond a quadrant midpoint as "right"/"bottom",
so out-of-range coordinates follow the rightmost/bottom-most path); no
out-of-bounds condition is ever signaled. -/
theorem C9_oob_query_clamps (k : Nat) (pixels : List Nat) (x y : Nat) :
    (Quadtree.build pixels (2 ^ k) (0, 0) (2 ^ k)).get (x, y) =
      pixels.getD (min x (2 ^ k - 1) + min y (2 ^ k - 1) * 2 ^ k) 0 :=
  Quadtree.get_build_clamp k pixels x y

/-! ### Claim C3 -/

/-- Claim C3, counterexample.  On the tree of the 2×2 bitmap `[5,0,0,0]` at
cutoff 10 the root branch is collapsed (contrast `5 < 10`).  Its `average`
is `(5+0+0+0)/4 = 1`, but the leaf-data stream is `[2]` — the code emits
`min/2 + max/2 = 0/2 + 5/2 = 2`, not the average the claim names.  (Leaves
in this tree hold a single pixel and emit a single byte, not four.) -/
theorem C3_counterexample :
    (Quadtree.build [5, 0, 0, 0] 2 (0, 0) 2).build_leaf_data 10 = [2] ∧
      (Quadtree.build [5, 0, 0, 0] 2 (0, 0) 2).average = 1 ∧
      ([2] : List Nat) ≠ [1] := by
  have ht : Quadtree.build [5, 0, 0, 0] 2 (0, 0) 2 =
      .Quad 0 5 (.Leaf 5) (.Leaf 0) (.Leaf 0) (.Leaf 0) 2 := by
    simp [Quadtree.build_step, Quadtree.build_base, low_bound, high_bound,
      Quadtree.minVal, Quadtree.maxVal]
  rw [ht]
  refine ⟨by decide, by decide, by decide⟩

/-- Claim C3, amended: the leaf-data walk emits, at a `Leaf` (which holds a
single pixel), that one byte; at a collapsed `Quad` (contrast strictly below
the cutoff), exactly one byte equal to `min/2 + max/2` with truncating
halves — in general *not* its average; and at a non-collapsed `Quad`,
nothing of its own, only the concatenation of its four children's
emissions in fixed order. -/
theorem C3_leaf_data_emission (v lo hi rk co : Nat) (a b c d : Quadtree) :
    (Quadtree.Leaf v).build_leaf_data co = [v] ∧
      (hi - lo < co →
        (Quadtree.Quad lo hi a b c d rk).build_leaf_data co = [lo / 2 + hi / 2]) ∧
      (¬ hi - lo < co →
        (Quadtree.Quad lo hi a b c d rk).build_leaf_data co =
          a.build_leaf_data co ++ b.build_leaf_data co ++ c.build_leaf_data co ++
            d.build_leaf_data co) := by
  refine ⟨rfl, fun h => ?_, fun h => ?_⟩ <;>
    simp [Quadtree.build_leaf_data, h]

/-- Witness for `C3_leaf_data_emission` at the counterexample's branch and at
a concrete leaf. -/
theorem C3_leaf_data_emission_witness :
    (Quadtree.Leaf 7).build_leaf_data 3 = [7] ∧
      (Quadtree.Quad 0 5 (.Leaf 5) (.Leaf 0) (.Leaf 0) (.Leaf 0) 2).build_leaf_data
        10 = [0 / 2 + 5 / 2] :=
  ⟨(C3_leaf_data_emission 7 0 5 2 3 (.Leaf 5) (.Leaf 0) (.Leaf 0) (.Leaf 0)).1,
    (C3_leaf_data_emission 7 0 5 2 10 (.Leaf 5) (.Leaf 0) (.Leaf 0)
      (.Leaf 0)).2.1 (by decide)⟩

/-! ### Claim C4 -/

/-- Claim C4: for every tree and cutoff, the structure stream and the
leaf-data stream stay in lockstep — decoding them together in the encoder's
fixed pre-order (a `false` bit consumes that position's byte, a `true` bit
descends into four children) succeeds and consumes exactly the bits and
bytes the encoder produced, with no leftover and no underrun. -/
theorem C4_streams_lockstep (t : Quadtree) (co : Nat) :
    decodeNode t.size (t.build_leaf_index co) (t.build_leaf_data co) =
      some ([], []) := by
  have h := decodeNode_spec t co t.size [] [] (le_refl _)
  simpa using h

/-! ### Claim C5 -/

/-- Claim C5, counterexample.  A 9-byte bitmap is a perfect square with side
3, which is not a power of two, yet construction succeeds (the assertion
`len == rank*rank` passes and a tree is built): the claimed
power-of-two-or-fail behavior does not exist in the code. -/
theorem C5_counterexample :
    (Quadtree.new (List.replicate 9 0)).isSome = true ∧
      ¬ ∃ j : Nat, 2 ^ j = 3 := by
  constructor
  · have h9 : Nat.sqrt (9 : Nat) = 3 := by
      rw [show (9 : Nat) = 3 * 3 by norm_num, Nat.sqrt_eq]
    unfold Quadtree.new
    simp only [List.length_replicate, h9]
    rw [if_pos (by norm_num)]
    rfl
  · rintro ⟨j, hj⟩
    match j with
    | 0 => simp at hj
    | 1 => simp at hj
    | j + 2 =>
      have h4 : (2 : Nat) ^ (j + 2) = 4 * 2 ^ j := by ring
      have h1 : (1 : Nat) ≤ 2 ^ j := Nat.one_le_two_pow
      omega

/-- Claim C5, amended: construction fails (the source's assertion panics,
producing no tree) if and only if the bitmap length is not a perfect square;
the power-of-two condition on the side is *not* checked, so any
perfect-square bitmap — e.g. one of side 3 — is accepted. -/
theorem C5_fails_iff_not_square (pixels : List Nat) :
    Quadtree.new pixels = none ↔ ¬ ∃ r : Nat, pixels.length = r * r := by
  by_cases h : pixels.length = Nat.sqrt pixels.length * Nat.sqrt pixels.length
  · have hr : ∃ r : Nat, pixels.length = r * r := ⟨_, h⟩
    unfold Quadtree.new
    rw [if_pos h]
    exact iff_of_false (by simp) (not_not_intro hr)
  · have hr : ¬ ∃ r : Nat, pixels.length = r * r := by
      rintro ⟨r, hrr⟩
      apply h
      rw [hrr, Nat.sqrt_eq]
    unfold Quadtree.new
    rw [if_neg h]
    exact iff_of_true rfl hr

/-! ### Claim C6 -/

/-- Claim C6: for every node of a tree built from a power-of-two-sized
window — every node of a built tree is itself `build` at its own offset and
window — each sample of the square region the node covers lies between the
node's `low` and `high` aggregates. -/
theorem C6_aggregate_bounds (k : Nat) (pixels : List Nat) (rank xo yo x y : Nat)
    (hx1 : xo ≤ x) (hx2 : x < xo + 2 ^ k) (hy1 : yo ≤ y) (hy2 : y < yo + 2 ^ k) :
    (Quadtree.build pixels rank (xo, yo) (2 ^ k)).minVal ≤
        pixels.getD (x + y * rank) 0 ∧
      pixels.getD (x + y * rank) 0 ≤
        (Quadtree.build pixels rank (xo, yo) (2 ^ k)).maxVal :=
  Quadtree.build_bounds k pixels rank xo yo x y hx1 hx2 hy1 hy2

/-- Witness for `C6_aggregate_bounds`: the spec's 4×4 bitmap, whole-image
node (offset `(0,0)`, window 4), sample at `(3,0)`. -/
theorem C6_aggregate_bounds_witness :
    (Quadtree.build [1, 1, 255, 255, 1, 1, 255, 255, 3, 0, 4, 4, 0, 0, 4, 4] 4
          (0, 0) (2 ^ 2)).minVal ≤
        ([1, 1, 255, 255, 1, 1, 255, 255, 3, 0, 4, 4, 0, 0, 4, 4] : List Nat).getD
          (3 + 0 * 4) 0 ∧
      ([1, 1, 255, 255, 1, 1, 255, 255, 3, 0, 4, 4, 0, 0, 4, 4] : List Nat).getD
          (3 + 0 * 4) 0 ≤
        (Quadtree.build [1, 1, 255, 255, 1, 1, 255, 255, 3, 0, 4, 4, 0, 0, 4, 4] 4
          (0, 0) (2 ^ 2)).maxVal :=
  C6_aggregate_bounds 2 [1, 1, 255, 255, 1, 1, 255, 255, 3, 0, 4, 4, 0, 0, 4, 4]
    4 0 0 3 0 (by decide) (by decide) (by decide) (by decide)

/-! ### Claim C7 -/

/-- Claim C7: for fixed channel trees, the reported serialized payload size
is non-increasing in the cutoff triple: raising any (or all) of the three
cutoffs can only shrink `compressed_size`. -/
theorem C7_size_monotone (t1 t2 t3 : Quadtree) (c c' : Nat × Nat × Nat)
    (h1 : c.1 ≤ c'.1) (h2 : c.2.1 ≤ c'.2.1) (h3 : c.2.2 ≤ c'.2.2) :
    compressed_size t1 t2 t3 c' ≤ compressed_size t1 t2 t3 c := by
  have d1 := t1.leaf_data_length_anti c.1 c'.1 h1
  have d2 := t2.leaf_data_length_anti c.2.1 c'.2.1 h2
  have d3 := t3.leaf_data_length_anti c.2.2 c'.2.2 h3
  have i1 := t1.leaf_index_length_anti c.1 c'.1 h1
  have i2 := t2.leaf_index_length_anti c.2.1 c'.2.1 h2
  have i3 := t3.leaf_index_length_anti c.2.2 c'.2.2 h3
  simp only [compressed_size]
  omega

/-- Witness for `C7_size_monotone`: three copies of the `[5,0,0,0]` tree,
cutoffs raised from `(0,0,0)` to `(10,10,10)`. -/
theorem C7_size_monotone_witness :
    compressed_size (Quadtree.Quad 0 5 (.Leaf 5) (.Leaf 0) (.Leaf 0) (.Leaf 0) 2)
        (Quadtree.Quad 0 5 (.Leaf 5) (.Leaf 0) (.Leaf 0) (.Leaf 0) 2)
        (Quadtree.Quad 0 5 (.Leaf 5) (.Leaf 0) (.Leaf 0) (.Leaf 0) 2)
        (10, 10, 10) ≤
      compressed_size (Quadtree.Quad 0 5 (.Leaf 5) (.Leaf 0) (.Leaf 0) (.Leaf 0) 2)
        (Quadtree.Quad 0 5 (.Leaf 5) (.Leaf 0) (.Leaf 0) (.Leaf 0) 2)
        (Quadtree.Quad 0 5 (.Leaf 5) (.Leaf 0) (.Leaf 0) (.Leaf 0) 2)
        (0, 0, 0) :=
  C7_size_monotone (Quadtree.Quad 0 5 (.Leaf 5) (.Leaf 0) (.Leaf 0) (.Leaf 0) 2)
    (Quadtree.Quad 0 5 (.Leaf 5) (.Leaf 0) (.Leaf 0) (.Leaf 0) 2)
    (Quadtree.Quad 0 5 (.Leaf 5) (.Leaf 0) (.Leaf 0) (.Leaf 0) 2)
    (0, 0, 0) (10, 10, 10) (by decide) (by decide) (by decide)

/-! ### Claim C8 -/

/-- Claim C8, counterexample.  Three copies of the `[1,2,3,4]` tree at
cutoffs `(0,0,0)`: each channel has 5 structure bits and 4 leaf bytes.  The
claimed per-channel formula gives `3*(ceil(5/8) + 4) = 15`; the code reports
`4+4+4 + (5+5+5)/8 = 13` — it sums the bit counts of the three channels
*before* one floor division by 8. -/
theorem C8_counterexample :
    compressed_size (Quadtree.build [1, 2, 3, 4] 2 (0, 0) 2)
        (Quadtree.build [1, 2, 3, 4] 2 (0, 0) 2)
        (Quadtree.build [1, 2, 3, 4] 2 (0, 0) 2) (0, 0, 0) = 13 ∧
      specPayloadSize (Quadtree.build [1, 2, 3, 4] 2 (0, 0) 2)
        (Quadtree.build [1, 2, 3, 4] 2 (0, 0) 2)
        (Quadtree.build [1, 2, 3, 4] 2 (0, 0) 2) (0, 0, 0) = 15 ∧
      (13 : Nat) ≠ 15 := by
  have ht : Quadtree.build [1, 2, 3, 4] 2 (0, 0) 2 =
      .Quad 1 4 (.Leaf 1) (.Leaf 2) (.Leaf 3) (.Leaf 4) 2 := by
    simp [Quadtree.build_step, Quadtree.build_base, low_bound, high_bound,
      Quadtree.minVal, Quadtree.maxVal]
  rw [ht]
  refine ⟨by decide, by decide, by decide⟩

/-- Claim C8, amended: the compressor reports the sum of the three channels'
leaf-data byte counts plus a single floor division by 8 of the *total*
structure bit count across the three channels; this is always at most the
spec's per-channel `ceil(bits/8) + bytes` sum, and differs from it whenever
padding would be needed. -/
theorem C8_reported_size (t1 t2 t3 : Quadtree) (co : Nat × Nat × Nat) :
    compressed_size t1 t2 t3 co =
        (t1.build_leaf_data co.1).length + (t2.build_leaf_data co.2.1).length +
          (t3.build_leaf_data co.2.2).length +
          ((t1.build_leaf_index co.1).length + (t2.build_leaf_index co.2.1).length +
            (t3.build_leaf_index co.2.2).length) / 8 ∧
      compressed_size t1 t2 t3 co ≤ specPayloadSize t1 t2 t3 co := by
  refine ⟨rfl, ?_⟩
  simp only [compressed_size, specPayloadSize]
  omega

/-! ### Claim C10 -/

/-- Claim C10: for a tree built from a bitmap of length `rank*rank`
(`rank = 2^k`), the one-channel leaf-data stream has length at least 1 and
at most `rank*rank` bytes at every cutoff, and at cutoff 0 — where no branch
has contrast strictly below the cutoff — exactly `rank*rank` bytes. -/
theorem C10_leaf_data_length (k : Nat) (pixels : List Nat) (co : Nat)
    (_hlen : pixels.length = 2 ^ k * 2 ^ k) :
    1 ≤ ((Quadtree.build pixels (2 ^ k) (0, 0) (2 ^ k)).build_leaf_data co).length ∧
      ((Quadtree.build pixels (2 ^ k) (0, 0) (2 ^ k)).build_leaf_data co).length ≤
        2 ^ k * 2 ^ k ∧
      ((Quadtree.build pixels (2 ^ k) (0, 0) (2 ^ k)).build_leaf_data 0).length =
        2 ^ k * 2 ^ k :=
  ⟨Quadtree.one_le_leaf_data_length _ co,
    Quadtree.leaf_data_length_build_le k pixels (2 ^ k) 0 0 co,
    Quadtree.leaf_data_length_build_zero k pixels (2 ^ k) 0 0⟩

/-- Witness for `C10_leaf_data_length`: the 2×2 bitmap `[5,0,0,0]` at
cutoff 7. -/
theorem C10_leaf_data_length_witness :
    1 ≤ ((Quadtree.build [5, 0, 0, 0] (2 ^ 1) (0, 0) (2 ^ 1)).build_leaf_data
        7).length ∧
      ((Quadtree.build [5, 0, 0, 0] (2 ^ 1) (0, 0) (2 ^ 1)).build_leaf_data
          7).length ≤ 2 ^ 1 * 2 ^ 1 ∧
      ((Quadtree.build [5, 0, 0, 0] (2 ^ 1) (0, 0) (2 ^ 1)).build_leaf_data
          0).length = 2 ^ 1 * 2 ^ 1 :=
  C10_leaf_data_length 1 [5, 0, 0, 0] 7 (by decide)
